import Mathlib

/-!
Verification of the grid-sweep benchmarking script
`experiments/s_test_speedup.py` (functions `one_experiment` and `main`).

The script is orchestration code: it validates a mode string, builds a
model/dataset/trainer (external collaborators), iterates evaluation
examples, filters them by prediction correctness, and for each retained
example sweeps a (num_samples x batch_size x repetition) grid, timing an
external estimator call and persisting each result record remotely.

The embedding below reproduces the script's control flow exactly.  All
external collaborators (model construction, the estimator `compute_s_test`,
the wall clock, the remote save) are opaque: they are parameters of an
`Env` structure, and every call to one of them is additionally recorded in
an explicit effect trace so that ordering, skipping and persistence claims
can be stated.  Randomness consumed by freshly built data loaders is
modelled by a seed counter threaded through the run: every
`get_dataloader` call consumes one fresh seed, and the opaque estimator
output may depend on that seed.
-/

namespace STestSpeedup

/-- A Python runtime value as far as the script's `is False` / `is True`
identity checks can observe it: either a genuine `bool` object, or any
non-`bool` object (carrying only its truthiness, which the script never
inspects). -/
inductive PyVal where
  | pyBool (b : Bool)
  | nonBool (truthy : Bool)
deriving DecidableEq, Repr

/-- Python's `x is True`: identity with the singleton `True` object. -/
def pyIsTrue : PyVal → Bool
  | .pyBool true => true
  | _ => false

/-- Python's `x is False`: identity with the singleton `False` object. -/
def pyIsFalse : PyVal → Bool
  | .pyBool false => true
  | _ => false

/-- One entry of the `output_collections` list built by `main`:
the dictionary literal at lines 168-176 of `s_test_speedup.py`.
`α` is the (opaque) type of the estimator output `s_test`, `τ` the
(opaque) type of wall-clock durations. -/
structure ResultRecord (α τ : Type) where
  test_index : Nat
  num_samples : Nat
  batch_size : Nat
  repetition : Nat
  s_test : α
  time_elapsed : τ
  correct : PyVal
deriving DecidableEq, Repr

/-- The opaque external collaborators of the script.
`evalCorrectness` gives, for each example of the evaluation loader in
order, the value returned by `misc_utils.is_prediction_correct`;
`sTest` gives the estimator output of `compute_s_test` as a function of
the fresh loader seed and the call's arguments; `elapsed` gives the
wall-clock time measured for the invocation that consumed a given seed. -/
structure Env (α τ : Type) where
  evalCorrectness : List PyVal
  sTest : Nat → Nat → Nat → Nat → α
  elapsed : Nat → τ

/-- Observable events of a run, in program order. -/
inductive Effect (α τ : Type) where
  | createModel
  | createDatasets
  | getDataloader (seed : Nat) (batch_size : Nat) (random : Bool)
  | createTrainer
  | modelToCuda
  | isPredictionCorrect (test_index : Nat) (result : PyVal)
  | inputsToCuda (test_index : Nat)
  | computeSTest (test_index num_samples batch_size : Nat)
  | saveAndMirror (file_name : String) (record : ResultRecord α τ)
deriving DecidableEq, Repr

/-- Python `range(start, stop, step)` for a positive step. -/
def pyRange (start stop step : Nat) : List Nat :=
  (List.range ((stop - start + (step - 1)) / step)).map (fun k => start + step * k)

/-- The sample-count axis `range(700, 1300 + 1, 100)` of the grid. -/
def sample_counts : List Nat := pyRange 700 (1300 + 1) 100

/-- The batch-size axis `[1, 2, 4, 8, 16, 32, 64, 128]` of the grid. -/
def batch_sizes : List Nat := [1, 2, 4, 8, 16, 32, 64, 128]

/-- The grid points of one retained example, in the nesting order of the
three `for` loops of `main`: `num_samples` outermost, then `batch_size`,
then `repetition` (`range(num_repetitions)`, empty when the argument is
not positive, as in Python). -/
def gridTuples (num_repetitions : Int) : List (Nat × Nat × Nat) :=
  sample_counts.flatMap (fun ns =>
    batch_sizes.flatMap (fun bs =>
      (List.range num_repetitions.toNat).map (fun r => (ns, bs, r))))

/-- The mode filter of `main` (lines 135-139): skip the current example
iff `mode == "only-correct" and prediction_is_correct is False`
or `mode == "only-incorrect" and prediction_is_correct is True`. -/
def skipped (mode : String) (prediction_is_correct : PyVal) : Bool :=
  (mode == "only-correct" && pyIsFalse prediction_is_correct) ||
  (mode == "only-incorrect" && pyIsTrue prediction_is_correct)

/-- The recognized values of the `mode` argument of `main`. -/
def valid_modes : List String := ["only-correct", "only-incorrect"]

/-- Decimal digit character for a digit value below ten. -/
def digitChar (d : Nat) : Char := Char.ofNat (48 + d)

/-- Decimal rendering of a natural number, as produced by Python's
string interpolation of a non-negative `int`. -/
def natDecimal (n : Nat) : List Char :=
  if _h : n < 10 then [digitChar n]
  else natDecimal (n / 10) ++ [digitChar (n % 10)]
termination_by n
decreasing_by exact Nat.div_lt_self (by omega) (by omega)

/-- Decimal rendering of an integer, as produced by Python's string
interpolation of an `int` (a leading minus sign when negative). -/
def intDecimal (n : Int) : List Char :=
  if n < 0 then '-' :: natDecimal n.natAbs else natDecimal n.toNat

/-- The persisted artifact name built at lines 180-182 of `main`:
`stest.<mode>.<num_examples_to_test>.<test_index>.<num_samples>.<batch_size>.<repetition>.pth`. -/
def fileName (mode : String) (num_examples_to_test : Int)
    (test_index num_samples batch_size repetition : Nat) : String :=
  ⟨"stest.".data ++ mode.data ++
    '.' :: intDecimal num_examples_to_test ++
    '.' :: natDecimal test_index ++
    '.' :: natDecimal num_samples ++
    '.' :: natDecimal batch_size ++
    '.' :: natDecimal repetition ++ ".pth".data⟩

/-- `one_experiment` (lines 28-70): rebuilds a batch data loader over the
training set (consuming one fresh randomness seed) and invokes the
external estimator `compute_s_test` through it, returning the estimator
output (moved to host memory), the next seed, and the trace of external
calls made. -/
def one_experiment (env : Env α τ) (seed : Nat) (test_index : Nat)
    (batch_size : Nat) (random : Bool) (num_samples : Nat) :
    α × Nat × List (Effect α τ) :=
  (env.sTest seed test_index num_samples batch_size, seed + 1,
   [.getDataloader seed batch_size random,
    .computeSTest test_index num_samples batch_size])

/-- The body of the three nested grid loops of `main` (lines 146-182),
run over an explicit list of grid tuples for one retained example:
each tuple is timed through `one_experiment`, turned into a result
record, persisted, and appended to the accumulation list. -/
def runGridAux (env : Env α τ) (mode : String) (num_examples_to_test : Int)
    (test_index : Nat) (correct : PyVal) :
    Nat → List (Nat × Nat × Nat) → List (ResultRecord α τ) × Nat × List (Effect α τ)
  | seed, [] => ([], seed, [])
  | seed, (ns, bs, r) :: rest =>
    let oe := one_experiment env seed test_index bs true ns
    let record : ResultRecord α τ :=
      { test_index := test_index, num_samples := ns, batch_size := bs,
        repetition := r, s_test := oe.1, time_elapsed := env.elapsed seed,
        correct := correct }
    let rGrid := runGridAux env mode num_examples_to_test test_index correct oe.2.1 rest
    (record :: rGrid.1, rGrid.2.1,
      oe.2.2 ++
        .saveAndMirror (fileName mode num_examples_to_test test_index ns bs r) record ::
          rGrid.2.2)

/-- The full grid sweep of one retained example. -/
def runGrid (env : Env α τ) (mode : String)
    (num_examples_to_test num_repetitions : Int) (test_index : Nat)
    (correct : PyVal) (seed : Nat) :
    List (ResultRecord α τ) × Nat × List (Effect α τ) :=
  runGridAux env mode num_examples_to_test test_index correct seed
    (gridTuples num_repetitions)

/-- The example loop of `main` (lines 124-184) over the enumerated
evaluation examples: break once `num_examples_tested` reaches
`num_examples_to_test` (checked at the top of each iteration), evaluate
prediction correctness, skip the example when the mode filter rejects it,
otherwise move its inputs to the device, sweep the grid, and count it. -/
def mainLoop (env : Env α τ) (mode : String)
    (num_examples_to_test num_repetitions : Int) :
    List (Nat × PyVal) → Int → Nat → List (ResultRecord α τ) × List (Effect α τ)
  | [], _, _ => ([], [])
  | (i, c) :: rest, num_examples_tested, seed =>
    if num_examples_tested ≥ num_examples_to_test then ([], [])
    else if skipped mode c then
      let r := mainLoop env mode num_examples_to_test num_repetitions rest
        num_examples_tested seed
      (r.1, .isPredictionCorrect i c :: r.2)
    else
      let g := runGrid env mode num_examples_to_test num_repetitions i c seed
      let r := mainLoop env mode num_examples_to_test num_repetitions rest
        (num_examples_tested + 1) g.2.1
      (g.1 ++ r.1, .isPredictionCorrect i c :: .inputsToCuda i :: (g.2.2 ++ r.2))

/-- The setup phase of `main` (lines 81-121): tokenizer/model creation,
dataset creation, the evaluation instance loader
(`batch_size=1, random=False`, consuming seed 0), trainer construction,
and the device move of the model. -/
def setupTrace {α τ : Type} : List (Effect α τ) :=
  [.createModel, .createDatasets, .getDataloader 0 1 false, .createTrainer,
   .modelToCuda]

/-- `main` (lines 73-186): validate the mode (raising `ValueError` for an
unrecognized one before anything else happens), run the setup phase, then
the example loop, and return the accumulated `output_collections`.
The first component is the effect trace of the run; the second is the
returned list, or the raised error. -/
def main (env : Env α τ) (mode : String)
    (num_examples_to_test num_repetitions : Int) :
    List (Effect α τ) × Except String (List (ResultRecord α τ)) :=
  if mode ∈ valid_modes then
    let r := mainLoop env mode num_examples_to_test num_repetitions
      env.evalCorrectness.enum 0 1
    (setupTrace ++ r.2, .ok r.1)
  else
    ([], .error ("Unrecognized mode " ++ mode))

/-- The result records of a run (empty when `main` raises). -/
def mainRecords (env : Env α τ) (mode : String)
    (num_examples_to_test num_repetitions : Int) : List (ResultRecord α τ) :=
  match (main env mode num_examples_to_test num_repetitions).2 with
  | .ok l => l
  | .error _ => []

/-- The effect trace of a run. -/
def mainTrace (env : Env α τ) (mode : String)
    (num_examples_to_test num_repetitions : Int) : List (Effect α τ) :=
  (main env mode num_examples_to_test num_repetitions).1

/-- The indices of the examples actually processed (retained and within
the quota) by the example loop, in order: the specification-level view of
the loop's control flow, used to state which examples contribute records. -/
def processedIndices (mode : String) (num_examples_to_test : Int) :
    List (Nat × PyVal) → Int → List Nat
  | [], _ => []
  | (i, c) :: rest, num_examples_tested =>
    if num_examples_tested ≥ num_examples_to_test then []
    else if skipped mode c then
      processedIndices mode num_examples_to_test rest num_examples_tested
    else i :: processedIndices mode num_examples_to_test rest (num_examples_tested + 1)

/-- The grid coordinates of a result record together with its example
index, in the order (test_index, num_samples, batch_size, repetition). -/
def proj4 (x : ResultRecord α τ) : Nat × Nat × Nat × Nat :=
  (x.test_index, x.num_samples, x.batch_size, x.repetition)

/-- The grid coordinates of a result record,
in the order (num_samples, batch_size, repetition). -/
def proj3 (x : ResultRecord α τ) : Nat × Nat × Nat :=
  (x.num_samples, x.batch_size, x.repetition)

/-- The file names of the persistence calls of a trace, in order. -/
def savedNames : List (Effect α τ) → List String :=
  List.filterMap (fun e =>
    match e with
    | .saveAndMirror file_name _ => some file_name
    | _ => none)

/-- The randomness seeds consumed by the data-loader constructions of a
trace, in order. -/
def loaderSeeds : List (Effect α τ) → List Nat :=
  List.filterMap (fun e =>
    match e with
    | .getDataloader seed _ _ => some seed
    | _ => none)

/-- Checks that every estimator call of a trace is immediately preceded
by the construction of a data loader with randomized order and the
batch size of that call, and that this loader serves exactly that one
call (the pair is consumed together, so no loader is reused). -/
def freshLoaderDiscipline : List (Effect α τ) → Bool
  | .getDataloader _ bs true :: .computeSTest _ _ bs2 :: rest =>
    bs == bs2 && freshLoaderDiscipline rest
  | .computeSTest _ _ _ :: _ => false
  | _ :: rest => freshLoaderDiscipline rest
  | [] => true

/-- Strict lexicographic order on (num_samples, batch_size, repetition)
triples. -/
def lex3 (a b : Nat × Nat × Nat) : Prop :=
  a.1 < b.1 ∨ (a.1 = b.1 ∧ (a.2.1 < b.2.1 ∨ (a.2.1 = b.2.1 ∧ a.2.2 < b.2.2)))

instance : DecidableRel lex3 := fun a b => by
  unfold lex3; infer_instance

/-- Modelled from the spec: the repository function
`misc_utils.is_prediction_correct` is not part of the excerpt (only its
caller is), and the spec's data model (section 3) and testable properties
(section 8) treat its result, the `correctness_flag`, as a boolean.
This predicate states that every correctness evaluation of the run
returns a genuine Python bool. -/
def boolCorrectness (env : Env α τ) : Prop :=
  ∀ c ∈ env.evalCorrectness, c = .pyBool true ∨ c = .pyBool false

/-- A small concrete environment used to witness the theorems. -/
def envA : Env Nat Nat :=
  { evalCorrectness := [.pyBool true, .pyBool false, .nonBool true, .pyBool true],
    sTest := fun seed i ns bs => seed + i + ns + bs,
    elapsed := fun seed => seed }

/-- A concrete environment whose correctness evaluations are all genuine
booleans. -/
def envB : Env Nat Nat :=
  { evalCorrectness := [.pyBool false, .pyBool true, .pyBool true, .pyBool false],
    sTest := fun seed i ns bs => seed * i + ns * bs,
    elapsed := fun seed => seed + 1 }

theorem runGridAux_map_proj4 (env : Env α τ) (mode : String) (net : Int)
    (i : Nat) (c : PyVal) (l : List (Nat × Nat × Nat)) (seed : Nat) :
    ((runGridAux env mode net i c seed l).1).map proj4
      = l.map (fun t => (i, t.1, t.2.1, t.2.2)) := by
  induction l generalizing seed with
  | nil => simp [runGridAux]
  | cons p rest ih =>
    obtain ⟨ns, bs, r⟩ := p
    simp [runGridAux, one_experiment, proj4, ih]

theorem runGridAux_correct_mem (env : Env α τ) (mode : String) (net : Int)
    (i : Nat) (c : PyVal) (l : List (Nat × Nat × Nat)) (seed : Nat) :
    ∀ x ∈ (runGridAux env mode net i c seed l).1, x.correct = c := by
  induction l generalizing seed with
  | nil => simp [runGridAux]
  | cons p rest ih =>
    obtain ⟨ns, bs, r⟩ := p
    simp only [runGridAux, List.mem_cons]
    rintro x (rfl | hx)
    · rfl
    · exact ih _ x hx

theorem runGridAux_seed (env : Env α τ) (mode : String) (net : Int)
    (i : Nat) (c : PyVal) (l : List (Nat × Nat × Nat)) (seed : Nat) :
    (runGridAux env mode net i c seed l).2.1 = seed + l.length := by
  induction l generalizing seed with
  | nil => simp [runGridAux]
  | cons p rest ih =>
    obtain ⟨ns, bs, r⟩ := p
    simp [runGridAux, one_experiment, ih]
    omega

theorem runGridAux_savedNames (env : Env α τ) (mode : String) (net : Int)
    (i : Nat) (c : PyVal) (l : List (Nat × Nat × Nat)) (seed : Nat) :
    savedNames (runGridAux env mode net i c seed l).2.2
      = l.map (fun t => fileName mode net i t.1 t.2.1 t.2.2) := by
  induction l generalizing seed with
  | nil => simp [runGridAux, savedNames]
  | cons p rest ih =>
    obtain ⟨ns, bs, r⟩ := p
    simp [runGridAux, one_experiment, savedNames] at ih ⊢
    exact ih _

theorem runGridAux_loaderSeeds (env : Env α τ) (mode : String) (net : Int)
    (i : Nat) (c : PyVal) (l : List (Nat × Nat × Nat)) (seed : Nat) :
    loaderSeeds (runGridAux env mode net i c seed l).2.2
      = List.range' seed l.length := by
  induction l generalizing seed with
  | nil => simp [runGridAux, loaderSeeds]
  | cons p rest ih =>
    obtain ⟨ns, bs, r⟩ := p
    simp [runGridAux, one_experiment, loaderSeeds, List.range'] at ih ⊢
    exact ih _

/-- The example index an effect belongs to, for effects that only happen
for examples retained by the mode filter (device moves of the inputs,
estimator calls and persistence calls); `none` for the others, including
the correctness evaluation, which also happens for skipped examples. -/
def gridEffectIndex : Effect α τ → Option Nat
  | .inputsToCuda j => some j
  | .computeSTest j _ _ => some j
  | .saveAndMirror _ x => some x.test_index
  | _ => none

/-- A persistence effect names its file by the composite key of its
record (the other effects satisfy this vacuously). -/
def savedNameConsistent (mode : String) (net : Int) : Effect α τ → Prop
  | .saveAndMirror file_name x =>
    file_name = fileName mode net x.test_index x.num_samples x.batch_size x.repetition
  | _ => True

theorem runGridAux_effects_mem (env : Env α τ) (mode : String) (net : Int)
    (i : Nat) (c : PyVal) (l : List (Nat × Nat × Nat)) (seed : Nat) :
    ∀ e ∈ (runGridAux env mode net i c seed l).2.2,
      savedNameConsistent mode net e ∧
        ∀ j, gridEffectIndex e = some j → j = i := by
  induction l generalizing seed with
  | nil => simp [runGridAux]
  | cons p rest ih =>
    obtain ⟨ns, bs, r⟩ := p
    simp only [runGridAux, one_experiment, List.cons_append, List.nil_append,
      List.mem_cons]
    rintro e (rfl | rfl | rfl | he)
    · exact ⟨trivial, by simp [gridEffectIndex]⟩
    · exact ⟨trivial, by simp [gridEffectIndex]⟩
    · refine ⟨rfl, ?_⟩
      intro j hj
      exact (by simpa [gridEffectIndex] using hj : i = j).symm
    · exact ih _ e he

theorem freshLoaderDiscipline_runGridAux (env : Env α τ) (mode : String)
    (net : Int) (i : Nat) (c : PyVal) (l : List (Nat × Nat × Nat)) (seed : Nat)
    (rest : List (Effect α τ)) :
    freshLoaderDiscipline ((runGridAux env mode net i c seed l).2.2 ++ rest)
      = freshLoaderDiscipline rest := by
  induction l generalizing seed with
  | nil => simp [runGridAux]
  | cons p tail ih =>
    obtain ⟨ns, bs, r⟩ := p
    simp [runGridAux, one_experiment, freshLoaderDiscipline, ih]

theorem mainLoop_map_proj4 (env : Env α τ) (mode : String) (net reps : Int)
    (l : List (Nat × PyVal)) (t : Int) (seed : Nat) :
    ((mainLoop env mode net reps l t seed).1).map proj4
      = (processedIndices mode net l t).flatMap
          (fun j => (gridTuples reps).map (fun p => (j, p.1, p.2.1, p.2.2))) := by
  induction l generalizing t seed with
  | nil => simp [mainLoop, processedIndices]
  | cons p rest ih =>
    obtain ⟨i, c⟩ := p
    by_cases hq : t ≥ net
    · simp [mainLoop, processedIndices, hq]
    · by_cases hs : skipped mode c
      · simp [mainLoop, processedIndices, hq, hs, ih]
      · simp [mainLoop, processedIndices, hq, hs, runGrid, ih,
          runGridAux_map_proj4]

theorem mainLoop_correct_mem (env : Env α τ) (mode : String) (net reps : Int)
    (l : List (Nat × PyVal)) (t : Int) (seed : Nat) :
    ∀ x ∈ (mainLoop env mode net reps l t seed).1,
      ∃ c, c ∈ l.map Prod.snd ∧ skipped mode c = false ∧ x.correct = c := by
  induction l generalizing t seed with
  | nil => simp [mainLoop]
  | cons p rest ih =>
    obtain ⟨i, c⟩ := p
    by_cases hq : t ≥ net
    · simp [mainLoop, hq]
    · by_cases hs : skipped mode c
      · intro x hx
        simp only [mainLoop, if_neg hq, if_pos hs] at hx
        obtain ⟨c2, hc2, hsk, hcor⟩ := ih t seed x hx
        exact ⟨c2, by rw [List.map_cons]; exact List.mem_cons_of_mem _ hc2,
          hsk, hcor⟩
      · intro x hx
        simp only [mainLoop, if_neg hq, if_neg hs, List.mem_append] at hx
        rcases hx with hx | hx
        · exact ⟨c, by simp, by simpa using hs,
            runGridAux_correct_mem env mode net i c _ _ x hx⟩
        · obtain ⟨c2, hc2, hsk, hcor⟩ := ih (t + 1) _ x hx
          exact ⟨c2, by rw [List.map_cons]; exact List.mem_cons_of_mem _ hc2,
            hsk, hcor⟩

theorem mainLoop_savedNames (env : Env α τ) (mode : String) (net reps : Int)
    (l : List (Nat × PyVal)) (t : Int) (seed : Nat) :
    savedNames (mainLoop env mode net reps l t seed).2
      = (processedIndices mode net l t).flatMap
          (fun j => (gridTuples reps).map
            (fun p => fileName mode net j p.1 p.2.1 p.2.2)) := by
  induction l generalizing t seed with
  | nil => simp [mainLoop, processedIndices, savedNames]
  | cons p rest ih =>
    obtain ⟨i, c⟩ := p
    by_cases hq : t ≥ net
    · simp [mainLoop, processedIndices, hq, savedNames]
    · by_cases hs : skipped mode c
      · simp [mainLoop, processedIndices, hq, hs, savedNames] at ih ⊢
        exact ih _ _
      · have hg := runGridAux_savedNames env mode net i c (gridTuples reps) seed
        have hr := ih (t + 1) (runGridAux env mode net i c seed (gridTuples reps)).2.1
        simp only [savedNames] at hg hr
        simp only [mainLoop, if_neg hq, if_neg hs, runGrid, processedIndices,
          savedNames, List.filterMap_cons, List.filterMap_append,
          List.flatMap_cons]
        rw [hg, hr]

theorem mainLoop_effects_mem (env : Env α τ) (mode : String) (net reps : Int)
    (l : List (Nat × PyVal)) (t : Int) (seed : Nat) :
    ∀ e ∈ (mainLoop env mode net reps l t seed).2,
      savedNameConsistent mode net e ∧
        ∀ j, gridEffectIndex e = some j → j ∈ processedIndices mode net l t := by
  induction l generalizing t seed with
  | nil => simp [mainLoop]
  | cons p rest ih =>
    obtain ⟨i, c⟩ := p
    by_cases hq : t ≥ net
    · simp [mainLoop, hq]
    · by_cases hs : skipped mode c
      · intro e he
        simp only [mainLoop, if_neg hq, if_pos hs, List.mem_cons] at he
        rcases he with rfl | he
        · exact ⟨trivial, by simp [gridEffectIndex]⟩
        · obtain ⟨h1, h2⟩ := ih t seed e he
          exact ⟨h1, fun j hj => by
            simpa [processedIndices, hq, hs] using h2 j hj⟩
      · intro e he
        simp only [mainLoop, if_neg hq, if_neg hs, List.mem_cons,
          List.mem_append] at he
        have hproc : processedIndices mode net ((i, c) :: rest) t
            = i :: processedIndices mode net rest (t + 1) := by
          simp [processedIndices, hq, hs]
        rcases he with rfl | rfl | he | he
        · exact ⟨trivial, by simp [gridEffectIndex]⟩
        · refine ⟨trivial, fun j hj => ?_⟩
          have : j = i := by simpa [gridEffectIndex] using hj.symm
          simp [hproc, this]
        · obtain ⟨h1, h2⟩ := runGridAux_effects_mem env mode net i c _ _ e
            (by simpa [runGrid] using he)
          exact ⟨h1, fun j hj => by simp [hproc, h2 j hj]⟩
        · obtain ⟨h1, h2⟩ := ih (t + 1) _ e he
          exact ⟨h1, fun j hj => by simp [hproc, h2 j hj]⟩

theorem mainLoop_loaderSeeds (env : Env α τ) (mode : String) (net reps : Int)
    (l : List (Nat × PyVal)) (t : Int) (seed : Nat) :
    ∃ K, loaderSeeds (mainLoop env mode net reps l t seed).2
      = List.range' seed K := by
  induction l generalizing t seed with
  | nil => exact ⟨0, by simp [mainLoop, loaderSeeds]⟩
  | cons p rest ih =>
    obtain ⟨i, c⟩ := p
    by_cases hq : t ≥ net
    · exact ⟨0, by simp [mainLoop, hq, loaderSeeds]⟩
    · by_cases hs : skipped mode c
      · obtain ⟨K, hK⟩ := ih t seed
        refine ⟨K, ?_⟩
        simpa [mainLoop, hq, hs, loaderSeeds] using hK
      · obtain ⟨K, hK⟩ := ih (t + 1) (seed + (gridTuples reps).length)
        refine ⟨(gridTuples reps).length + K, ?_⟩
        have hseed := runGridAux_seed env mode net i c (gridTuples reps) seed
        have hls := runGridAux_loaderSeeds env mode net i c (gridTuples reps) seed
        have happ := List.range'_append seed (gridTuples reps).length K 1
        simp only [mainLoop, if_neg hq, if_neg hs, runGrid, loaderSeeds,
          List.filterMap_cons, List.filterMap_append] at hK ⊢
        rw [hseed]
        simp only [loaderSeeds] at hls
        rw [hls, hK]
        simp [Nat.add_comm]

theorem mainLoop_discipline (env : Env α τ) (mode : String) (net reps : Int)
    (l : List (Nat × PyVal)) (t : Int) (seed : Nat) :
    freshLoaderDiscipline (mainLoop env mode net reps l t seed).2 = true := by
  induction l generalizing t seed with
  | nil => simp [mainLoop, freshLoaderDiscipline]
  | cons p rest ih =>
    obtain ⟨i, c⟩ := p
    by_cases hq : t ≥ net
    · simp [mainLoop, hq, freshLoaderDiscipline]
    · by_cases hs : skipped mode c
      · simpa [mainLoop, hq, hs, freshLoaderDiscipline] using ih t seed
      · have h := freshLoaderDiscipline_runGridAux env mode net i c
          (gridTuples reps) seed (mainLoop env mode net reps rest (t + 1)
            (runGrid env mode net reps i c seed).2.1).2
        simp only [mainLoop, if_neg hq, if_neg hs, freshLoaderDiscipline]
        simpa [runGrid] using h.trans (by rw [ih])

theorem processedIndices_take (mode : String) (net : Int)
    (l : List (Nat × PyVal)) (t : Int) :
    processedIndices mode net l t
      = ((l.filter (fun p => !skipped mode p.2)).map Prod.fst).take
          (net - t).toNat := by
  induction l generalizing t with
  | nil => simp [processedIndices]
  | cons p rest ih =>
    obtain ⟨i, c⟩ := p
    by_cases hq : t ≥ net
    · have h0 : (net - t).toNat = 0 := by omega
      simp [processedIndices, hq, h0]
    · by_cases hs : skipped mode c
      · simp [processedIndices, hq, hs, ih]
      · have h1 : (net - t).toNat = (net - (t + 1)).toNat + 1 := by omega
        simp [processedIndices, hq, hs, ih, h1, List.take_succ_cons]

theorem processedIndices_sublist (mode : String) (net : Int)
    (l : List (Nat × PyVal)) (t : Int) :
    (processedIndices mode net l t).Sublist (l.map Prod.fst) := by
  rw [processedIndices_take]
  exact (List.take_sublist _ _).trans
    (List.Sublist.map Prod.fst (List.filter_sublist l))

theorem processedIndices_nodup (mode : String) (net : Int)
    (l : List PyVal) (t : Int) :
    (processedIndices mode net l.enum t).Nodup :=
  (processedIndices_sublist mode net l.enum t).nodup (List.nodup_enum_map_fst l)

theorem sample_counts_eq :
    sample_counts = [700, 800, 900, 1000, 1100, 1200, 1300] := by decide

theorem pairwise_flatMap_of {β γ : Type} {R : γ → γ → Prop} {l : List β}
    {f : β → List γ} (h1 : ∀ a ∈ l, (f a).Pairwise R)
    (h2 : l.Pairwise (fun a b => ∀ x ∈ f a, ∀ y ∈ f b, R x y)) :
    (l.flatMap f).Pairwise R := by
  rw [List.flatMap_def]
  refine List.pairwise_flatten.mpr ⟨?_, ?_⟩
  · intro l2 hl2
    obtain ⟨a, ha, rfl⟩ := List.mem_map.mp hl2
    exact h1 a ha
  · exact List.pairwise_map.mpr h2

theorem gridTuples_length (reps : Int) :
    (gridTuples reps).length = 7 * 8 * reps.toNat := by
  simp [gridTuples, sample_counts_eq, batch_sizes]
  omega

theorem gridTuples_pairwise (reps : Int) :
    (gridTuples reps).Pairwise lex3 := by
  unfold gridTuples
  refine pairwise_flatMap_of ?_ ?_
  · intro ns _
    refine pairwise_flatMap_of ?_ ?_
    · intro bs _
      refine List.pairwise_map.mpr ?_
      exact (List.pairwise_lt_range _).imp
        (fun h => Or.inr ⟨rfl, Or.inr ⟨rfl, h⟩⟩)
    · have hb : batch_sizes.Pairwise (· < ·) := by decide
      refine hb.imp ?_
      intro bs bs2 hlt x hx y hy
      simp only [List.mem_map] at hx hy
      obtain ⟨r, _, rfl⟩ := hx
      obtain ⟨r2, _, rfl⟩ := hy
      exact Or.inr ⟨rfl, Or.inl hlt⟩
  · have hs : sample_counts.Pairwise (· < ·) := by decide
    refine hs.imp ?_
    intro a b hlt x hx y hy
    simp only [List.mem_flatMap, List.mem_map] at hx hy
    obtain ⟨bs, _, r, _, rfl⟩ := hx
    obtain ⟨bs2, _, r2, _, rfl⟩ := hy
    exact Or.inl hlt

theorem lex3_ne {a b : Nat × Nat × Nat} (h : lex3 a b) : a ≠ b := by
  obtain ⟨a1, a2, a3⟩ := a
  obtain ⟨b1, b2, b3⟩ := b
  simp only [lex3] at h
  intro hab
  simp only [Prod.mk.injEq] at hab
  rcases h with h | ⟨e1, h | ⟨e2, h⟩⟩ <;> omega

theorem gridTuples_nodup (reps : Int) : (gridTuples reps).Nodup :=
  (gridTuples_pairwise reps).imp lex3_ne

theorem filter_flatMap_eq {γ : Type} {il : List Nat} (f : Nat → List γ)
    (idx : γ → Nat) (hf : ∀ j, ∀ x ∈ f j, idx x = j) (i : Nat)
    (hnd : il.Nodup) :
    (il.flatMap f).filter (fun x => idx x == i)
      = if i ∈ il then f i else [] := by
  induction il with
  | nil => simp
  | cons j rest ih =>
    rw [List.nodup_cons] at hnd
    obtain ⟨hj, hrest⟩ := hnd
    rw [List.flatMap_cons, List.filter_append, ih hrest]
    by_cases hij : i = j
    · subst hij
      have h1 : (f i).filter (fun x => idx x == i) = f i :=
        List.filter_eq_self.mpr (fun x hx => by simp [hf i x hx])
      simp [h1, hj]
    · have h1 : (f j).filter (fun x => idx x == i) = [] :=
        List.filter_eq_nil_iff.mpr (fun x hx => by
          simp only [beq_iff_eq, hf j x hx]
          exact fun h => hij h.symm)
      have hmem : (i ∈ j :: rest) = (i ∈ rest) := by
        simp [List.mem_cons, hij]
      simp [h1, hmem]

theorem digitChar_ne_dot : ∀ d : Nat, d < 10 → digitChar d ≠ '.' := by decide

theorem digitChar_toNat : ∀ d : Nat, d < 10 → (digitChar d).toNat = 48 + d := by
  decide

theorem dot_not_mem_natDecimal (n : Nat) : '.' ∉ natDecimal n := by
  induction n using Nat.strong_induction_on with
  | _ n ih =>
    rw [natDecimal]
    split
    · next h =>
      simp only [List.mem_singleton]
      exact fun hc => digitChar_ne_dot n h hc.symm
    · next h =>
      intro hmem
      rcases List.mem_append.mp hmem with h1 | h2
      · exact ih (n / 10) (Nat.div_lt_self (by omega) (by omega)) h1
      · rw [List.mem_singleton] at h2
        exact digitChar_ne_dot (n % 10) (Nat.mod_lt n (by omega)) h2.symm

theorem natDecimal_foldl (n : Nat) :
    ∀ init : Nat,
      (natDecimal n).foldl (fun acc ch => acc * 10 + (ch.toNat - 48)) init
        = init * 10 ^ (natDecimal n).length + n := by
  induction n using Nat.strong_induction_on with
  | _ n ih =>
    intro init
    rw [natDecimal]
    split
    · next h =>
      simp [List.foldl, digitChar_toNat n h]
    · next h =>
      have hlt : n / 10 < n := Nat.div_lt_self (by omega) (by omega)
      rw [List.foldl_append, ih (n / 10) hlt init]
      simp only [List.foldl, List.length_append, List.length_singleton]
      rw [digitChar_toNat (n % 10) (Nat.mod_lt n (by omega))]
      have hsub : 48 + n % 10 - 48 = n % 10 := by omega
      have hdm := Nat.div_add_mod n 10
      rw [hsub, pow_succ]
      have hring : (init * 10 ^ (natDecimal (n / 10)).length + n / 10) * 10
            + n % 10
          = init * (10 ^ (natDecimal (n / 10)).length * 10)
            + (10 * (n / 10) + n % 10) := by ring
      rw [hring, hdm]

theorem natDecimal_injective {a b : Nat} (h : natDecimal a = natDecimal b) :
    a = b := by
  have ha := natDecimal_foldl a 0
  have hb := natDecimal_foldl b 0
  rw [h] at ha
  simpa using ha.symm.trans hb

theorem append_sep_inj :
    ∀ (a b x y : List Char), '.' ∉ a → '.' ∉ b →
      a ++ '.' :: x = b ++ '.' :: y → a = b ∧ x = y := by
  intro a
  induction a with
  | nil =>
    intro b x y _ hb h
    cases b with
    | nil => simpa using h
    | cons d bs =>
      exfalso
      simp only [List.nil_append, List.cons_append, List.cons.injEq] at h
      exact hb (h.1 ▸ List.mem_cons_self d bs)
  | cons c as ih =>
    intro b x y ha hb h
    cases b with
    | nil =>
      exfalso
      simp only [List.cons_append, List.nil_append, List.cons.injEq] at h
      exact ha (h.1 ▸ List.mem_cons_self c as)
    | cons d bs =>
      simp only [List.cons_append, List.cons.injEq] at h
      obtain ⟨rfl, h2⟩ := h
      have hras := ih bs x y (fun hc => ha (List.mem_cons_of_mem _ hc))
        (fun hc => hb (List.mem_cons_of_mem _ hc)) h2
      exact ⟨by rw [hras.1], hras.2⟩

theorem natDecimal_sep_inj {a b : Nat} {x y : List Char}
    (h : natDecimal a ++ '.' :: x = natDecimal b ++ '.' :: y) :
    a = b ∧ x = y := by
  have hr := append_sep_inj (natDecimal a) (natDecimal b) x y
    (dot_not_mem_natDecimal a) (dot_not_mem_natDecimal b) h
  exact ⟨natDecimal_injective hr.1, hr.2⟩

theorem fileName_inj (mode : String) (net : Int)
    {i ns bs r i2 ns2 bs2 r2 : Nat}
    (h : fileName mode net i ns bs r = fileName mode net i2 ns2 bs2 r2) :
    i = i2 ∧ ns = ns2 ∧ bs = bs2 ∧ r = r2 := by
  have hd : ("stest.".data ++ mode.data ++ '.' :: intDecimal net
        ++ '.' :: natDecimal i ++ '.' :: natDecimal ns
        ++ '.' :: natDecimal bs ++ '.' :: natDecimal r ++ ".pth".data)
      = ("stest.".data ++ mode.data ++ '.' :: intDecimal net
        ++ '.' :: natDecimal i2 ++ '.' :: natDecimal ns2
        ++ '.' :: natDecimal bs2 ++ '.' :: natDecimal r2 ++ ".pth".data) :=
    congrArg String.data h
  simp only [List.append_assoc, List.cons_append, List.nil_append] at hd
  simp only [List.cons.injEq, true_and] at hd
  have h2 := List.append_cancel_left hd
  simp only [List.cons.injEq, true_and] at h2
  have h3 := List.append_cancel_left h2
  simp only [List.cons.injEq, true_and] at h3
  obtain ⟨hi, h5⟩ := natDecimal_sep_inj h3
  obtain ⟨hns, h6⟩ := natDecimal_sep_inj h5
  obtain ⟨hbs, h7⟩ := natDecimal_sep_inj h6
  obtain ⟨hrr, _⟩ := natDecimal_sep_inj h7
  exact ⟨hi, hns, hbs, hrr⟩

/-- C3: for every mode string other than "only-correct" and
"only-incorrect", `main` raises the `ValueError` "Unrecognized mode ..."
immediately: the effect trace is empty (no model, dataset or example is
touched) and no result record is produced or persisted. -/
theorem C3_invalid_mode_fails_fast (env : Env α τ) (mode : String)
    (hm : mode ∉ valid_modes) (net reps : Int) :
    main env mode net reps = ([], .error ("Unrecognized mode " ++ mode)) := by
  simp [main, hm]

theorem C3_invalid_mode_fails_fast_witness :
    ("bogus" ∉ valid_modes) ∧
      main envA "bogus" 5 4 = ([], .error ("Unrecognized mode " ++ "bogus")) :=
  ⟨by decide, C3_invalid_mode_fails_fast envA "bogus" (by decide) 5 4⟩

/-- The example loop immediately breaks when the quota is already
reached at entry. -/
theorem mainLoop_quota_reached (env : Env α τ) (mode : String)
    (net reps : Int) (l : List (Nat × PyVal)) (t : Int) (seed : Nat)
    (h : t ≥ net) :
    mainLoop env mode net reps l t seed = ([], []) := by
  cases l with
  | nil => simp [mainLoop]
  | cons p rest => obtain ⟨i, c⟩ := p; simp [mainLoop, h]

theorem mainRecords_eq (env : Env α τ) (mode : String) (hm : mode ∈ valid_modes)
    (net reps : Int) :
    mainRecords env mode net reps
      = (mainLoop env mode net reps env.evalCorrectness.enum 0 1).1 := by
  simp [mainRecords, main, hm]

theorem mainTrace_eq (env : Env α τ) (mode : String) (hm : mode ∈ valid_modes)
    (net reps : Int) :
    mainTrace env mode net reps
      = setupTrace
        ++ (mainLoop env mode net reps env.evalCorrectness.enum 0 1).2 := by
  simp [mainTrace, main, hm]

theorem mainRecords_filter_proj3 (env : Env α τ) (mode : String)
    (hm : mode ∈ valid_modes) (net reps : Int) (i : Nat) :
    ((mainRecords env mode net reps).filter
        (fun x => x.test_index == i)).map proj3
      = (if i ∈ processedIndices mode net env.evalCorrectness.enum 0
          then gridTuples reps else []) := by
  rw [mainRecords_eq env mode hm net reps]
  have h1 := mainLoop_map_proj4 env mode net reps env.evalCorrectness.enum 0 1
  have hf : ∀ j : Nat, ∀ x ∈ (gridTuples reps).map
      (fun p => (j, p.1, p.2.1, p.2.2)), x.1 = j := by
    intro j x hx
    obtain ⟨p, _, rfl⟩ := List.mem_map.mp hx
    rfl
  have hnd := processedIndices_nodup mode net env.evalCorrectness 0
  have h2 := filter_flatMap_eq
    (fun j => (gridTuples reps).map (fun p => (j, p.1, p.2.1, p.2.2)))
    (fun t => t.1) hf i hnd
  rw [← h1] at h2
  calc ((mainLoop env mode net reps env.evalCorrectness.enum 0 1).1.filter
        (fun x => x.test_index == i)).map proj3
      = (((mainLoop env mode net reps env.evalCorrectness.enum 0 1).1.map
          proj4).filter (fun t => t.1 == i)).map (fun t => t.2) := by
        rw [List.filter_map, List.map_map]
        rfl
    _ = (if i ∈ processedIndices mode net env.evalCorrectness.enum 0
          then (gridTuples reps).map (fun p => (i, p.1, p.2.1, p.2.2))
          else []).map (fun t => t.2) := by rw [h2]
    _ = (if i ∈ processedIndices mode net env.evalCorrectness.enum 0
          then gridTuples reps else []) := by
        split
        · rw [List.map_map]
          have hid : ((fun t : Nat × Nat × Nat × Nat => t.2)
              ∘ (fun p : Nat × Nat × Nat => (i, p.1, p.2.1, p.2.2))) = id := by
            funext p
            rfl
          rw [hid, List.map_id]
        · simp

theorem mainRecords_test_index_mem (env : Env α τ) (mode : String)
    (hm : mode ∈ valid_modes) (net reps : Int) :
    ∀ x ∈ mainRecords env mode net reps,
      x.test_index ∈ processedIndices mode net env.evalCorrectness.enum 0 := by
  intro x hx
  rw [mainRecords_eq env mode hm net reps] at hx
  have h1 := mainLoop_map_proj4 env mode net reps env.evalCorrectness.enum 0 1
  have hm4 : proj4 x
      ∈ (mainLoop env mode net reps env.evalCorrectness.enum 0 1).1.map proj4 :=
    List.mem_map_of_mem proj4 hx
  rw [h1] at hm4
  obtain ⟨j, hj, hx2⟩ := List.mem_flatMap.mp hm4
  obtain ⟨p, _, heq⟩ := List.mem_map.mp hx2
  have hji : j = x.test_index := congrArg Prod.fst heq
  rw [← hji]
  exact hj

/-- C10: for `num_examples_to_test ≤ 0` and a valid mode, the loop breaks
on the first evaluation example before any correctness evaluation,
estimator call or persistence call: the trace is exactly the setup phase
(model and dataset construction still occur) and the returned list is
empty. -/
theorem C10_nonpositive_quota_returns_empty (env : Env α τ) (mode : String)
    (hm : mode ∈ valid_modes) (net reps : Int) (hn : net ≤ 0) :
    main env mode net reps = (setupTrace, .ok []) := by
  simp [main, hm, mainLoop_quota_reached env mode net reps _ 0 _ (by omega)]

theorem C10_nonpositive_quota_returns_empty_witness :
    (("only-correct" : String) ∈ valid_modes ∧ (0 : Int) ≤ 0) ∧
      main envA "only-correct" 0 4 = (setupTrace, .ok []) :=
  ⟨by decide, C10_nonpositive_quota_returns_empty envA "only-correct" (by decide) 0 4 (by decide)⟩

/-- C1: with a valid mode, for every example index the returned records
bearing that test index, projected to (num_samples, batch_size,
repetition), are either empty (the example was skipped or never reached)
or exactly the full grid of 7 x 8 x num_repetitions points, each exactly
once: no grid point is skipped and none is duplicated. -/
theorem C1_full_grid_per_retained_example (env : Env α τ) (mode : String)
    (hm : mode ∈ valid_modes) (net reps : Int) :
    (∀ i : Nat,
      ((mainRecords env mode net reps).filter
          (fun x => x.test_index == i)).map proj3
        = (if i ∈ processedIndices mode net env.evalCorrectness.enum 0
            then gridTuples reps else [])) ∧
      (gridTuples reps).length = 7 * 8 * reps.toNat ∧
      (gridTuples reps).Nodup :=
  ⟨fun i => mainRecords_filter_proj3 env mode hm net reps i,
    gridTuples_length reps, gridTuples_nodup reps⟩

theorem C1_full_grid_per_retained_example_witness :
    (("only-correct" : String) ∈ valid_modes) ∧
      ((∀ i : Nat,
        ((mainRecords envA "only-correct" 2 1).filter
            (fun x => x.test_index == i)).map proj3
          = (if i ∈ processedIndices "only-correct" 2
                envA.evalCorrectness.enum 0
              then gridTuples 1 else [])) ∧
        (gridTuples 1).length = 7 * 8 * (1 : Int).toNat ∧
        (gridTuples 1).Nodup) :=
  ⟨by decide, C1_full_grid_per_retained_example envA "only-correct" (by decide) 2 1⟩

/-- C4: with a valid mode, at most `num_examples_to_test` examples are
processed; when the evaluation set contains at least that many retained
(non-skipped) examples, exactly `num_examples_to_test` are processed; and
every returned record belongs to one of the processed examples (so once
the quota is full, iteration halts and later examples contribute
nothing). -/
theorem C4_quota_bounds_processed_examples (env : Env α τ) (mode : String)
    (hm : mode ∈ valid_modes) (net reps : Int) :
    (processedIndices mode net env.evalCorrectness.enum 0).length ≤ net.toNat
      ∧ (net.toNat ≤ (env.evalCorrectness.enum.filter
            (fun p => !skipped mode p.2)).length →
          (processedIndices mode net env.evalCorrectness.enum 0).length
            = net.toNat)
      ∧ (∀ x ∈ mainRecords env mode net reps,
          x.test_index ∈ processedIndices mode net env.evalCorrectness.enum 0) := by
  refine ⟨?_, ?_, mainRecords_test_index_mem env mode hm net reps⟩
  · rw [processedIndices_take]
    simp only [List.length_take, List.length_map]
    omega
  · intro hge
    rw [processedIndices_take]
    simp only [List.length_take, List.length_map]
    omega

theorem C4_quota_bounds_processed_examples_witness :
    (("only-correct" : String) ∈ valid_modes) ∧
      ((processedIndices "only-correct" 2 envA.evalCorrectness.enum 0).length
          ≤ (2 : Int).toNat
        ∧ ((2 : Int).toNat ≤ (envA.evalCorrectness.enum.filter
              (fun p => !skipped "only-correct" p.2)).length →
            (processedIndices "only-correct" 2
              envA.evalCorrectness.enum 0).length = (2 : Int).toNat)
        ∧ (∀ x ∈ mainRecords envA "only-correct" 2 1,
            x.test_index ∈ processedIndices "only-correct" 2
              envA.evalCorrectness.enum 0)) :=
  ⟨by decide, C4_quota_bounds_processed_examples envA "only-correct" (by decide) 2 1⟩

/-- C5: with a valid mode, the records of each retained example appear in
strictly ascending lexicographic order of (num_samples, batch_size,
repetition); the num_samples axis is the fixed 100-step list 700..1300
and the batch_size axis is the fixed list 1,2,4,8,16,32,64,128, with
repetitions counted from zero (the grid tuples are built from
`List.range`). -/
theorem C5_records_lex_sorted_within_example (env : Env α τ) (mode : String)
    (hm : mode ∈ valid_modes) (net reps : Int) :
    (∀ i : Nat,
      (((mainRecords env mode net reps).filter
          (fun x => x.test_index == i)).map proj3).Pairwise lex3) ∧
      sample_counts = [700, 800, 900, 1000, 1100, 1200, 1300] ∧
      batch_sizes = [1, 2, 4, 8, 16, 32, 64, 128] := by
  refine ⟨?_, sample_counts_eq, rfl⟩
  intro i
  rw [mainRecords_filter_proj3 env mode hm net reps i]
  split
  · exact gridTuples_pairwise reps
  · exact List.Pairwise.nil

theorem C5_records_lex_sorted_within_example_witness :
    (("only-correct" : String) ∈ valid_modes) ∧
      ((∀ i : Nat,
        (((mainRecords envA "only-correct" 2 1).filter
            (fun x => x.test_index == i)).map proj3).Pairwise lex3) ∧
        sample_counts = [700, 800, 900, 1000, 1100, 1200, 1300] ∧
        batch_sizes = [1, 2, 4, 8, 16, 32, 64, 128]) :=
  ⟨by decide, C5_records_lex_sorted_within_example envA "only-correct" (by decide) 2 1⟩

/-- C2: under the spec-modelled assumption that the correctness
evaluation always returns a genuine boolean, every record returned by a
run with mode "only-correct" has its correct field equal to True, and
every record returned by a run with mode "only-incorrect" has it equal
to False. -/
theorem C2_correct_flag_matches_mode (env : Env α τ) (net reps : Int)
    (hb : boolCorrectness env) :
    (∀ x ∈ mainRecords env "only-correct" net reps,
      x.correct = .pyBool true) ∧
    (∀ x ∈ mainRecords env "only-incorrect" net reps,
      x.correct = .pyBool false) := by
  constructor
  · intro x hx
    rw [mainRecords_eq env _ (by decide) net reps] at hx
    obtain ⟨c, hc, hsk, hcor⟩ := mainLoop_correct_mem env "only-correct"
      net reps env.evalCorrectness.enum 0 1 x hx
    rw [List.enum_map_snd] at hc
    rcases hb c hc with rfl | rfl
    · exact hcor
    · exact absurd hsk (by decide)
  · intro x hx
    rw [mainRecords_eq env _ (by decide) net reps] at hx
    obtain ⟨c, hc, hsk, hcor⟩ := mainLoop_correct_mem env "only-incorrect"
      net reps env.evalCorrectness.enum 0 1 x hx
    rw [List.enum_map_snd] at hc
    rcases hb c hc with rfl | rfl
    · exact absurd hsk (by decide)
    · exact hcor

theorem C2_correct_flag_matches_mode_witness :
    boolCorrectness envB ∧
      ((∀ x ∈ mainRecords envB "only-correct" 2 1,
        x.correct = .pyBool true) ∧
      (∀ x ∈ mainRecords envB "only-incorrect" 2 1,
        x.correct = .pyBool false)) :=
  ⟨by unfold boolCorrectness; decide,
    C2_correct_flag_matches_mode envB 2 1 (by unfold boolCorrectness; decide)⟩

/-- C6: within a run (fixed mode and requested example count) the
artifact naming function is injective over the grid coordinates, every
persistence call of the trace names its file deterministically by the
composite key of its record, and the persisted names of a whole run are
pairwise distinct. -/
theorem C6_artifact_names_unique_and_deterministic (env : Env α τ)
    (mode : String) (hm : mode ∈ valid_modes) (net reps : Int) :
    (∀ i ns bs r i2 ns2 bs2 r2 : Nat,
      fileName mode net i ns bs r = fileName mode net i2 ns2 bs2 r2 →
        (i, ns, bs, r) = (i2, ns2, bs2, r2)) ∧
    (∀ e ∈ mainTrace env mode net reps, savedNameConsistent mode net e) ∧
    (savedNames (mainTrace env mode net reps)).Nodup := by
  refine ⟨?_, ?_, ?_⟩
  · intro i ns bs r i2 ns2 bs2 r2 h
    obtain ⟨h1, h2, h3, h4⟩ := fileName_inj mode net h
    rw [h1, h2, h3, h4]
  · rw [mainTrace_eq env mode hm net reps]
    intro e he
    rcases List.mem_append.mp he with hs | hl
    · simp only [setupTrace, List.mem_cons, List.not_mem_nil, or_false] at hs
      rcases hs with rfl | rfl | rfl | rfl | rfl <;> trivial
    · exact (mainLoop_effects_mem env mode net reps
        env.evalCorrectness.enum 0 1 e hl).1
  · rw [mainTrace_eq env mode hm net reps]
    have h0 : savedNames (setupTrace
        ++ (mainLoop env mode net reps env.evalCorrectness.enum 0 1).2)
        = savedNames (mainLoop env mode net reps
            env.evalCorrectness.enum 0 1).2 := rfl
    rw [h0, mainLoop_savedNames env mode net reps env.evalCorrectness.enum 0 1]
    rw [List.nodup_flatMap]
    constructor
    · intro j _
      refine List.Nodup.map_on ?_ (gridTuples_nodup reps)
      intro x _ y _ hxy
      obtain ⟨x1, x2, x3⟩ := x
      obtain ⟨y1, y2, y3⟩ := y
      obtain ⟨h1, h2, h3, h4⟩ := fileName_inj mode net hxy
      have e1 : x1 = y1 := h2
      have e2 : x2 = y2 := h3
      have e3 : x3 = y3 := h4
      rw [e1, e2, e3]
    · have hnd := processedIndices_nodup mode net env.evalCorrectness 0
      refine List.Pairwise.imp ?_ hnd
      intro a b hab
      simp only [Function.onFun]
      intro nm hma hmb
      obtain ⟨p, _, hpe⟩ := List.mem_map.mp hma
      obtain ⟨q, _, hqe⟩ := List.mem_map.mp hmb
      exact hab (fileName_inj mode net (hpe.trans hqe.symm)).1

theorem C6_artifact_names_unique_and_deterministic_witness :
    (("only-correct" : String) ∈ valid_modes) ∧
      ((∀ i ns bs r i2 ns2 bs2 r2 : Nat,
        fileName "only-correct" 2 i ns bs r
            = fileName "only-correct" 2 i2 ns2 bs2 r2 →
          (i, ns, bs, r) = (i2, ns2, bs2, r2)) ∧
      (∀ e ∈ mainTrace envA "only-correct" 2 1,
        savedNameConsistent "only-correct" 2 e) ∧
      (savedNames (mainTrace envA "only-correct" 2 1)).Nodup) :=
  ⟨by decide, C6_artifact_names_unique_and_deterministic envA "only-correct"
    (by decide) 2 1⟩

/-- C7: an example rejected by the mode filter is not counted toward the
quota, contributes no result record, causes no device move, estimator
call or persistence call, and leaves the accumulation list exactly as it
would have been without the example. -/
theorem C7_skipped_example_no_side_effects (env : Env α τ) (mode : String)
    (hm : mode ∈ valid_modes) (net reps : Int) (i : Nat) (c : PyVal)
    (hic : (i, c) ∈ env.evalCorrectness.enum)
    (hsk : skipped mode c = true) :
    i ∉ processedIndices mode net env.evalCorrectness.enum 0 ∧
    (∀ x ∈ mainRecords env mode net reps, x.test_index ≠ i) ∧
    (∀ e ∈ mainTrace env mode net reps, gridEffectIndex e ≠ some i) ∧
    (∀ (rest : List (Nat × PyVal)) (t : Int) (seed : Nat),
      (mainLoop env mode net reps ((i, c) :: rest) t seed).1
        = (mainLoop env mode net reps rest t seed).1) := by
  have hnotin : i ∉ processedIndices mode net env.evalCorrectness.enum 0 := by
    intro hin
    rw [processedIndices_take] at hin
    have hin2 := (List.take_sublist _ _).subset hin
    obtain ⟨p, hp, hpi⟩ := List.mem_map.mp hin2
    obtain ⟨pi, pc⟩ := p
    rw [List.mem_filter] at hp
    obtain ⟨hpmem, hpnsk⟩ := hp
    have hpi2 : pi = i := hpi
    subst hpi2
    have h1 : env.evalCorrectness[pi]? = some pc :=
      List.mem_enum_iff_getElem?.mp hpmem
    have h2 : env.evalCorrectness[pi]? = some c :=
      List.mem_enum_iff_getElem?.mp hic
    have hcc : pc = c := Option.some.inj (h1.symm.trans h2)
    rw [hcc] at hpnsk
    simp only [Bool.not_eq_true'] at hpnsk
    rw [hsk] at hpnsk
    exact absurd hpnsk (by decide)
  refine ⟨hnotin, ?_, ?_, ?_⟩
  · intro x hx hxi
    exact hnotin (hxi ▸ mainRecords_test_index_mem env mode hm net reps x hx)
  · rw [mainTrace_eq env mode hm net reps]
    intro e he
    rcases List.mem_append.mp he with hs | hl
    · simp only [setupTrace, List.mem_cons, List.not_mem_nil, or_false] at hs
      rcases hs with rfl | rfl | rfl | rfl | rfl <;> simp [gridEffectIndex]
    · intro heq
      exact hnotin ((mainLoop_effects_mem env mode net reps
        env.evalCorrectness.enum 0 1 e hl).2 i heq)
  · intro rest t seed
    by_cases hq : t ≥ net
    · rw [mainLoop_quota_reached env mode net reps ((i, c) :: rest) t seed hq,
        mainLoop_quota_reached env mode net reps rest t seed hq]
    · simp [mainLoop, hq, hsk]

theorem C7_skipped_example_no_side_effects_witness :
    ((("only-correct" : String) ∈ valid_modes) ∧
      ((1 : Nat), PyVal.pyBool false) ∈ envA.evalCorrectness.enum ∧
      skipped "only-correct" (.pyBool false) = true) ∧
      ((1 : Nat) ∉ processedIndices "only-correct" 2
          envA.evalCorrectness.enum 0 ∧
      (∀ x ∈ mainRecords envA "only-correct" 2 1, x.test_index ≠ 1) ∧
      (∀ e ∈ mainTrace envA "only-correct" 2 1,
        gridEffectIndex e ≠ some 1) ∧
      (∀ (rest : List (Nat × PyVal)) (t : Int) (seed : Nat),
        (mainLoop envA "only-correct" 2 1 ((1, .pyBool false) :: rest) t seed).1
          = (mainLoop envA "only-correct" 2 1 rest t seed).1)) :=
  ⟨⟨by decide, by decide, by decide⟩,
    C7_skipped_example_no_side_effects envA "only-correct" (by decide) 2 1 1
      (.pyBool false) (by decide) (by decide)⟩

/-- C8: every estimator invocation of a run is immediately preceded by
the construction of a fresh randomized batch data loader with that
invocation's batch size, the loader serves exactly that invocation, and
every data-loader construction of the run consumes a distinct randomness
seed, so no loader or iteration state is carried over between
invocations. -/
theorem C8_fresh_loader_per_estimator_call (env : Env α τ) (mode : String)
    (hm : mode ∈ valid_modes) (net reps : Int) :
    freshLoaderDiscipline (mainTrace env mode net reps) = true ∧
    (loaderSeeds (mainTrace env mode net reps)).Nodup := by
  rw [mainTrace_eq env mode hm net reps]
  constructor
  · have hstep : freshLoaderDiscipline (setupTrace
        ++ (mainLoop env mode net reps env.evalCorrectness.enum 0 1).2)
        = freshLoaderDiscipline (mainLoop env mode net reps
            env.evalCorrectness.enum 0 1).2 := rfl
    rw [hstep]
    exact mainLoop_discipline env mode net reps env.evalCorrectness.enum 0 1
  · have h0 : loaderSeeds (setupTrace
        ++ (mainLoop env mode net reps env.evalCorrectness.enum 0 1).2)
        = 0 :: loaderSeeds (mainLoop env mode net reps
            env.evalCorrectness.enum 0 1).2 := rfl
    obtain ⟨K, hK⟩ := mainLoop_loaderSeeds env mode net reps
      env.evalCorrectness.enum 0 1
    rw [h0, hK]
    refine List.nodup_cons.mpr ⟨?_, List.nodup_range' 1 K⟩
    intro hmem
    rw [List.mem_range'_1] at hmem
    omega

theorem C8_fresh_loader_per_estimator_call_witness :
    (("only-correct" : String) ∈ valid_modes) ∧
      (freshLoaderDiscipline (mainTrace envA "only-correct" 2 1) = true ∧
      (loaderSeeds (mainTrace envA "only-correct" 2 1)).Nodup) :=
  ⟨by decide, C8_fresh_loader_per_estimator_call envA "only-correct"
    (by decide) 2 1⟩

/-- C9: the mode filter's comparisons are Python identity tests against
the bool singletons: for a valid mode a non-bool correctness value (of
either truthiness) is never skipped, mode "only-correct" skips exactly
the value False and mode "only-incorrect" skips exactly the value True,
and an example whose correctness value is a non-bool takes the full
processing branch of the loop (its grid records are produced) whenever
the quota is not yet reached. -/
theorem C9_identity_comparison_retains_nonbool (mode : String)
    (hm : mode ∈ valid_modes) (tr : Bool) (c : PyVal) (env : Env α τ)
    (net reps : Int) (rest : List (Nat × PyVal)) (i : Nat) (t : Int)
    (seed : Nat) (ht : t < net) :
    skipped mode (.nonBool tr) = false ∧
    (skipped "only-correct" c = true ↔ c = .pyBool false) ∧
    (skipped "only-incorrect" c = true ↔ c = .pyBool true) ∧
    (mainLoop env mode net reps ((i, .nonBool tr) :: rest) t seed).1
      = (runGrid env mode net reps i (.nonBool tr) seed).1
        ++ (mainLoop env mode net reps rest (t + 1)
            (runGrid env mode net reps i (.nonBool tr) seed).2.1).1 := by
  have hm2 : mode = "only-correct" ∨ mode = "only-incorrect" := by
    simpa [valid_modes] using hm
  have hsk : skipped mode (.nonBool tr) = false := by
    rcases hm2 with rfl | rfl <;> cases tr <;> decide
  refine ⟨hsk, ?_, ?_, ?_⟩
  · cases c with
    | pyBool b => cases b <;> decide
    | nonBool tb => cases tb <;> decide
  · cases c with
    | pyBool b => cases b <;> decide
    | nonBool tb => cases tb <;> decide
  · have hq : ¬t ≥ net := by omega
    simp [mainLoop, hq, hsk]

theorem C9_identity_comparison_retains_nonbool_witness :
    ((("only-correct" : String) ∈ valid_modes) ∧ (0 : Int) < 2) ∧
      (skipped "only-correct" (.nonBool true) = false ∧
      (skipped "only-correct" (.nonBool false) = true
        ↔ PyVal.nonBool false = .pyBool false) ∧
      (skipped "only-incorrect" (.nonBool false) = true
        ↔ PyVal.nonBool false = .pyBool true) ∧
      (mainLoop envA "only-correct" 2 1 ((0, .nonBool true) :: []) 0 1).1
        = (runGrid envA "only-correct" 2 1 0 (.nonBool true) 1).1
          ++ (mainLoop envA "only-correct" 2 1 [] (0 + 1)
              (runGrid envA "only-correct" 2 1 0 (.nonBool true) 1).2.1).1) :=
  ⟨⟨by decide, by decide⟩,
    C9_identity_comparison_retains_nonbool "only-correct" (by decide) true
      (.nonBool false) envA 2 1 [] 0 0 1 (by decide)⟩

end STestSpeedup
